import Mathlib

/-!
Shallow embedding of `tap/parsing.py` (typed-argument-parser): the `Tap`
class, an `ArgumentParser` subclass that derives command-line arguments
from class-level type annotations, type-checks parsed values, copies them
onto the instance, and serializes them (plus reproducibility metadata)
to a JSON file.

Python dictionaries are modelled as association lists over `String` keys
with Python's assignment semantics (`dinsert`: update in place if the key
exists, append otherwise).  Python values are modelled by the inductive
`PyVal`, covering the runtime types this library manipulates.
-/

namespace Tap

/-- Python runtime types occurring in this library's value universe. -/
inductive PyType
  | int
  | bool
  | str
  | noneType
  | list
  | dict
  | function
deriving DecidableEq, Repr

/-- Python values, restricted to the types above. -/
inductive PyVal
  | vint (n : Int)
  | vbool (b : Bool)
  | vstr (s : String)
  | vnone
  | vlist (xs : List PyVal)
  | vdict (kvs : List (String × PyVal))
  | vfunc (name : String)
deriving BEq, Repr

/-- Python's `type(value)` on our value universe. -/
def typeOf : PyVal → PyType
  | .vint _ => .int
  | .vbool _ => .bool
  | .vstr _ => .str
  | .vnone => .noneType
  | .vlist _ => .list
  | .vdict _ => .dict
  | .vfunc _ => .function

/-- Python's `callable(value)` on our value universe. -/
def isCallable : PyVal → Bool
  | .vfunc _ => true
  | _ => false

/-- Python's `var.startswith('_')`: the first character is an
underscore (false on the empty string). -/
def startsWithUnderscore (s : String) : Bool :=
  match s.data with
  | [] => false
  | c :: _ => c = '_'

/-- Dictionary lookup `d[k]` / `d.get(k)` (first matching key). -/
def dlookup {α : Type} : List (String × α) → String → Option α
  | [], _ => Option.none
  | (k', v) :: rest, k => if k' = k then some v else dlookup rest k

/-- Dictionary assignment `d[k] = v`: update in place when the key is
present (keeping its position), append otherwise. -/
def dinsert {α : Type} (k : String) (v : α) : List (String × α) → List (String × α)
  | [] => [(k, v)]
  | (k', v') :: rest => if k' = k then (k, v) :: rest else (k', v') :: dinsert k v rest

/-- Python's dict merge `\x7b**a, **b\x7d`: entries of `b` assigned on top
of a copy of `a`, so `b` wins on key collision. -/
def dmerge {α : Type} (a b : List (String × α)) : List (String × α) :=
  b.foldl (fun d kv => dinsert kv.1 kv.2 d) a

/-- First-preferring choice on options: the value of `b` if present,
otherwise the value of `a` (lookup semantics of the dict merge
`\x7b**a, **b\x7d`). -/
def orElseD {α : Type} (b a : Option α) : Option α :=
  match b with
  | some v => some v
  | Option.none => a

/-- In this pure-value model object identity is not represented, so
`copy.deepcopy` is value-preserving: it returns its argument.  The
aliasing behaviour that motivates the deep copy in the source is modelled
separately by the heap model below (`deepcopyH`). -/
def deepcopy (v : PyVal) : PyVal := v

/-- Errors raised by `Tap._parse_args` (both `ValueError`s in the source,
lines 65 and 70-71) and by the user validation hook. -/
inductive ParseError
  | undeclaredField (varName className : String)
  | typeMismatch (varName : String) (argType annType : PyType) (className : String)
  | validationError (msg : String)
deriving DecidableEq, Repr

/-- The loop body of `Tap._parse_args` (parsing.py lines 62-74): for each
name bound by the underlying parser, first check that the name has a type
declaration, then check that the runtime type of the value exactly equals
the declared type, then `setattr(self, variable, deepcopy(value))`.  The
instance attribute state is threaded explicitly and returned even on
error, since the Python code mutates `self` in place. -/
def parse_args_inner (ann : List (String × PyType)) (className : String) :
    List (String × PyVal) → List (String × PyVal) →
    Except ParseError Unit × List (String × PyVal)
  | [], st => (Except.ok (), st)
  | (varName, value) :: rest, st =>
    match dlookup ann varName with
    | Option.none => (Except.error (ParseError.undeclaredField varName className), st)
    | some variableType =>
      if typeOf value = variableType then
        parse_args_inner ann className rest (dinsert varName (deepcopy value) st)
      else
        (Except.error (ParseError.typeMismatch varName (typeOf value) variableType className), st)

/-- The attribute state produced by successfully copying a list of
bindings onto the instance, in order. -/
def applyBindings (bs : List (String × PyVal)) (st : List (String × PyVal)) :
    List (String × PyVal) :=
  bs.foldl (fun s nv => dinsert nv.1 (deepcopy nv.2) s) st

/-- A binding passes both checks of the `_parse_args` loop: its name is
declared and the value's runtime type equals the declared type. -/
def okBinding (ann : List (String × PyType)) (nv : String × PyVal) : Prop :=
  dlookup ann nv.1 = some (typeOf nv.2)

/-- `Tap.parse_args` (parsing.py lines 106-113): run `_parse_args`, then
the `validate_args` hook, then the `process_args` hook.  The hooks are
parameters: `validate` may raise (modelled as `Except`), `process` may
further mutate the attribute state. -/
def parse_args (ann : List (String × PyType)) (className : String)
    (validate : List (String × PyVal) → Except ParseError Unit)
    (process : List (String × PyVal) → List (String × PyVal))
    (bindings : List (String × PyVal)) (st : List (String × PyVal)) :
    Except ParseError Unit × List (String × PyVal) :=
  match parse_args_inner ann className bindings st with
  | (Except.ok _, st') =>
    match validate st' with
    | Except.ok _ => (Except.ok (), process st')
    | Except.error e => (Except.error e, st')
  | (Except.error e, st') => (Except.error e, st')

/-- Display name of a Python type (`annotation.__name__`). -/
def typeName : PyType → String
  | .int => "int"
  | .bool => "bool"
  | .str => "str"
  | .noneType => "NoneType"
  | .list => "list"
  | .dict => "dict"
  | .function => "function"

/-- A registered argument, the information `Tap.add_argument` passes to
the underlying `argparse` parser: destination name, `required`, expected
`type`, `default` and `help`. -/
structure ArgSpec where
  name : String
  required : Bool
  argType : Option PyType
  dflt : Option PyVal
  help : Option String
deriving Repr

/-- `Tap.add_argument` (parsing.py lines 29-43), for an optional argument
`--name`.  `kwType`, `kwDefault`, `kwHelp` are the explicitly supplied
keyword arguments (`Option.none` when absent).  When the destination name
is annotated, `type` defaults to the annotation and `help` to
`(<type name>) <docstring description>`; when `hasattr(self, name)` (the
name has a value visible on the instance, `selfAttrs`), `default`
defaults to that value.  `descriptions` models the docstring description
map (`self.variable_description`); `extract_descriptions` lives in
`tap.parse_docstrings`, which is not under src, so per the spec it is
modelled as a total map from field name to description text. -/
def add_argument (ann : List (String × PyType)) (descriptions : String → String)
    (selfAttrs : List (String × PyVal)) (name : String) (required : Bool)
    (kwType : Option PyType) (kwDefault : Option PyVal) (kwHelp : Option String) :
    ArgSpec :=
  let t : Option PyType :=
    match dlookup ann name with
    | some a => some (kwType.getD a)
    | Option.none => kwType
  let h : Option String :=
    match dlookup ann name with
    | some a => some (kwHelp.getD ("(" ++ typeName a ++ ") " ++ descriptions name))
    | Option.none => kwHelp
  let d : Option PyVal :=
    match dlookup selfAttrs name with
    | some v => some (kwDefault.getD v)
    | Option.none => kwDefault
  { name := name, required := required, argType := t, dflt := d, help := h }

/-- `Tap._add_remaining_arguments` (parsing.py lines 45-51): for every
annotated variable not already registered, add `--variable` with
`required = not hasattr(self, variable)`. -/
def add_remaining_arguments (ann : List (String × PyType))
    (descriptions : String → String) (selfAttrs : List (String × PyVal))
    (currentArguments : List String) : List ArgSpec :=
  (ann.filter (fun p => !(currentArguments.contains p.1))).map
    (fun p =>
      add_argument ann descriptions selfAttrs p.1
        ((dlookup selfAttrs p.1).isNone) Option.none Option.none Option.none)

/-- Calling the registered `type` on a raw command-line token, as the
underlying `argparse` parser does (`int(raw)`, `str(raw)`, `bool(raw)`,
`list(raw)`, ...); `Option.none` models the call raising. -/
def convert (t : PyType) (raw : String) : Option PyVal :=
  match t with
  | .int => (raw.toInt?).map PyVal.vint
  | .str => some (PyVal.vstr raw)
  | .bool => some (PyVal.vbool (!(raw = "")))
  | .list => some (PyVal.vlist (raw.toList.map (fun c => PyVal.vstr (String.mk [c]))))
  | .noneType => Option.none
  | .dict => Option.none
  | .function => Option.none

/-- How the underlying parser binds a single registered optional
argument: if the flag is on the command line convert its token with the
registered type (identity on the raw string when no type is registered);
if absent, fail when the argument is required, otherwise bind the
registered default (argparse's implicit default is `None`). -/
def bindOne (cmd : List (String × String)) (spec : ArgSpec) : Except String PyVal :=
  match dlookup cmd spec.name with
  | some raw =>
    match spec.argType with
    | some t =>
      match convert t raw with
      | some v => Except.ok v
      | Option.none => Except.error ("argument --" ++ spec.name ++ ": invalid value: " ++ raw)
    | Option.none => Except.ok (PyVal.vstr raw)
  | Option.none =>
    if spec.required then
      Except.error ("the following arguments are required: --" ++ spec.name)
    else
      Except.ok (spec.dflt.getD PyVal.vnone)

/-- The namespace produced by the underlying parser
(`super().parse_args`): one binding per registered argument, or a usage
error.  The command line is modelled as flag-name/raw-token pairs. -/
def parse_namespace (cmd : List (String × String)) :
    List ArgSpec → Except String (List (String × PyVal))
  | [] => Except.ok []
  | spec :: rest =>
    match bindOne cmd spec with
    | Except.ok v =>
      match parse_namespace cmd rest with
      | Except.ok bs => Except.ok ((spec.name, v) :: bs)
      | Except.error e => Except.error e
    | Except.error e => Except.error e

/-- Errors surfaced by the end-to-end pipeline: usage errors from the
underlying parser, or `ValueError`s from `Tap._parse_args`. -/
inductive TapError
  | usage (msg : String)
  | parseFail (e : ParseError)
deriving DecidableEq, Repr

/-- End-to-end pipeline of a `Tap` subclass with only auto-registered
arguments: construction registers `--variable` for every annotated
variable (`_add_remaining_arguments` with no manually registered
arguments), the underlying parser produces the namespace bindings from
the command line, and `_parse_args` checks them and copies them onto the
instance (whose own attribute dictionary starts empty; `classDefaults`
are the class-level default values, which is what `hasattr`/`getattr`
see before parsing). -/
def tap_parse (ann : List (String × PyType)) (className : String)
    (descriptions : String → String) (classDefaults : List (String × PyVal))
    (cmd : List (String × String)) : Except TapError (List (String × PyVal)) :=
  let specs := add_remaining_arguments ann descriptions classDefaults []
  match parse_namespace cmd specs with
  | Except.error e => Except.error (TapError.usage e)
  | Except.ok bindings =>
    match parse_args_inner ann className bindings [] with
    | (Except.ok _, st) => Except.ok st
    | (Except.error e, _) => Except.error (TapError.parseFail e)

/-- Python's `getattr(self, n)`: instance attribute dictionary first,
then the class attribute dictionary; `Option.none` models
`AttributeError`. -/
def pygetattr (instanceAttrs classDict : List (String × PyVal)) (n : String) :
    Option PyVal :=
  match dlookup instanceAttrs n with
  | some v => some v
  | Option.none => dlookup classDict n

/-- A dict comprehension `\x7bn: getattr(self, n) for n in names\x7d`,
evaluated left to right, raising `AttributeError` (modelled as
`Except.error`) at the first name that is not set. -/
def getattrAll (instanceAttrs classDict : List (String × PyVal))
    (acc : List (String × PyVal)) :
    List String → Except String (List (String × PyVal))
  | [] => Except.ok acc
  | n :: rest =>
    match pygetattr instanceAttrs classDict n with
    | some v => getattrAll instanceAttrs classDict (dinsert n v acc) rest
    | Option.none => Except.error ("AttributeError: " ++ n)

/-- `Tap.as_dict` (parsing.py lines 115-130): group (a) `required_args`,
one entry per non-underscore-prefixed, non-callable key of the class
dictionary, read with `getattr` off the live instance; group (b)
`not_required_args`, one entry per annotated variable, read with
`getattr` off the live instance; result `\x7b**required_args,
**not_required_args\x7d`. -/
def as_dict (classDict : List (String × PyVal)) (ann : List (String × PyType))
    (instanceAttrs : List (String × PyVal)) :
    Except String (List (String × PyVal)) :=
  let requiredVars :=
    ((classDict.filter (fun p => !(startsWithUnderscore p.1) && !(isCallable p.2))).map Prod.fst)
  match getattrAll instanceAttrs classDict [] requiredVars with
  | Except.error e => Except.error e
  | Except.ok required_args =>
    match getattrAll instanceAttrs classDict [] (ann.map Prod.fst) with
    | Except.error e => Except.error e
    | Except.ok not_required_args => Except.ok (dmerge required_args not_required_args)

/-- The ambient process state read by `Tap.get_reproducibility_info`:
`sys.argv`, `time.strftime` and the version-control probes.  The probes
(`has_git`, `get_git_root`, `get_git_url`, `has_uncommitted_changes`)
live in `tap.utils`, which is not under src.  Modelled from the spec:
`hasGit` is whether the process runs inside a recognized version-control
working tree (the VCS tool is present and a repository root is
discoverable), and the three `git*` fields are the values the probes
would report. -/
structure Env where
  argv : List String
  timeStr : String
  hasGit : Bool
  gitRoot : String
  gitUrl : String
  gitHasUncommittedChanges : Bool

/-- `Tap.get_reproducibility_info` (parsing.py lines 84-97): always
`command_line` and `time`; additionally `git_root`, `git_url` and
`git_has_uncommitted_changes` when `has_git()`. -/
def get_reproducibility_info (env : Env) : List (String × PyVal) :=
  let reproducibility : List (String × PyVal) :=
    [("command_line", PyVal.vstr ("python " ++ String.intercalate " " env.argv)),
     ("time", PyVal.vstr env.timeStr)]
  if env.hasGit then
    dinsert "git_has_uncommitted_changes" (PyVal.vbool env.gitHasUncommittedChanges)
      (dinsert "git_url" (PyVal.vstr env.gitUrl)
        (dinsert "git_root" (PyVal.vstr env.gitRoot) reproducibility))
  else
    reproducibility

/-- `Tap.get_arg_log` (parsing.py lines 99-104): `as_dict()` with the
`reproducibility` key assigned on top. -/
def get_arg_log (env : Env) (classDict : List (String × PyVal))
    (ann : List (String × PyType)) (instanceAttrs : List (String × PyVal)) :
    Except String (List (String × PyVal)) :=
  match as_dict classDict ann instanceAttrs with
  | Except.ok arg_log =>
    Except.ok (dinsert "reproducibility" (PyVal.vdict (get_reproducibility_info env)) arg_log)
  | Except.error e => Except.error e

/-- JSON values, the image of `json.dump` followed by `json.load`. -/
inductive JVal
  | jnum (n : Int)
  | jbool (b : Bool)
  | jstr (s : String)
  | jnull
  | jarr (xs : List JVal)
  | jobj (kvs : List (String × JVal))
deriving BEq, Repr

mutual

/-- JSON serialization of a Python value (`json.dump`); `Option.none`
models `TypeError: not JSON serializable` (functions). -/
def toJson : PyVal → Option JVal
  | .vint n => some (JVal.jnum n)
  | .vbool b => some (JVal.jbool b)
  | .vstr s => some (JVal.jstr s)
  | .vnone => some JVal.jnull
  | .vfunc _ => Option.none
  | .vlist xs => (toJsonList xs).map JVal.jarr
  | .vdict kvs => (objToJson kvs).map JVal.jobj

/-- Serialization of a list's elements. -/
def toJsonList : List PyVal → Option (List JVal)
  | [] => some []
  | x :: xs =>
    match toJson x, toJsonList xs with
    | some j, some js => some (j :: js)
    | _, _ => Option.none

/-- Serialization of a dict's entry list. -/
def objToJson : List (String × PyVal) → Option (List (String × JVal))
  | [] => some []
  | (k, x) :: kvs =>
    match toJson x, objToJson kvs with
    | some j, some js => some ((k, j) :: js)
    | _, _ => Option.none

end

/-- Lexicographic comparison of character lists by code point, the
order Python uses to compare strings (and hence the order of
`sort_keys=True`). -/
def charListLe : List Char → List Char → Bool
  | [], _ => true
  | _ :: _, [] => false
  | a :: as, b :: bs =>
    if a.toNat < b.toNat then true
    else if a.toNat = b.toNat then charListLe as bs
    else false

/-- Lexicographic string comparison by code point. -/
def strLe (a b : String) : Bool := charListLe a.data b.data

/-- Insert an entry into an object's entry list in front of the first
entry whose key is not smaller (insertion step of lexicographic key
sorting). -/
def insertSorted (k : String) (v : JVal) : List (String × JVal) → List (String × JVal)
  | [] => [(k, v)]
  | (k', v') :: rest =>
    if strLe k k' then (k, v) :: (k', v') :: rest else (k', v') :: insertSorted k v rest

mutual

/-- The effect of `sort_keys=True` on the emitted JSON: every object's
entries appear in lexicographic key order, recursively. -/
def sortJ : JVal → JVal
  | .jnum n => JVal.jnum n
  | .jbool b => JVal.jbool b
  | .jstr s => JVal.jstr s
  | .jnull => JVal.jnull
  | .jarr xs => JVal.jarr (sortJList xs)
  | .jobj kvs => JVal.jobj (sortObj kvs)

/-- Key-sorting applied to each element of an array. -/
def sortJList : List JVal → List JVal
  | [] => []
  | x :: xs => sortJ x :: sortJList xs

/-- Key-sorting of an object's entry list. -/
def sortObj : List (String × JVal) → List (String × JVal)
  | [] => []
  | (k, v) :: kvs => insertSorted k (sortJ v) (sortObj kvs)

end

/-- Lookup in a JSON object (what indexing the mapping read back with
`json.load` does); `Option.none` on non-objects. -/
def jlookup : JVal → String → Option JVal
  | .jobj kvs, k => dlookup kvs k
  | _, _ => Option.none

/-- The keys of a JSON object in emission order. -/
def jKeys : JVal → List String
  | .jobj kvs => kvs.map Prod.fst
  | _ => []

/-- `Tap.save` (parsing.py lines 132-139), modelled at the level of the
JSON value the written file parses back to: `json.dump(get_arg_log(),
f, indent=4, sort_keys=True)`.  `indent=4` is purely presentational
(whitespace), and `sort_keys=True` emits every object's keys in
lexicographic order (`sortJ`), so the parsed-back content of the file is
`sortJ` of the serialized arg log. -/
def save (env : Env) (classDict : List (String × PyVal))
    (ann : List (String × PyType)) (instanceAttrs : List (String × PyVal)) :
    Except String JVal :=
  match get_arg_log env classDict ann instanceAttrs with
  | Except.error e => Except.error e
  | Except.ok arg_log =>
    match toJson (PyVal.vdict arg_log) with
    | some j => Except.ok (sortJ j)
    | Option.none => Except.error "TypeError: Object is not JSON serializable"

mutual

/-- Rendering of a Python value (as `pprint.pformat` prints it; the
exact text is irrelevant to the claims, only that computing it forces
every value). -/
def pyRepr : PyVal → String
  | .vint n => toString n
  | .vbool b => if b then "True" else "False"
  | .vstr s => "'" ++ s ++ "'"
  | .vnone => "None"
  | .vfunc f => "<function " ++ f ++ ">"
  | .vlist xs => "[" ++ pyReprList xs ++ "]"
  | .vdict kvs => "\x7b" ++ pyReprObj kvs ++ "\x7d"

/-- Rendering of a list's elements. -/
def pyReprList : List PyVal → String
  | [] => ""
  | x :: xs => pyRepr x ++ ", " ++ pyReprList xs

/-- Rendering of a dict's entries. -/
def pyReprObj : List (String × PyVal) → String
  | [] => ""
  | (k, x) :: kvs => "'" ++ k ++ "': " ++ pyRepr x ++ ", " ++ pyReprObj kvs

end

/-- `Tap.__str__` (parsing.py lines 141-143): `pformat(self.as_dict())`,
so it fails exactly when `as_dict` fails. -/
def tap_str (classDict : List (String × PyVal)) (ann : List (String × PyType))
    (instanceAttrs : List (String × PyVal)) : Except String String :=
  match as_dict classDict ann instanceAttrs with
  | Except.ok d =>
    Except.ok (String.intercalate ", " (d.map (fun kv => "'" ++ kv.1 ++ "': " ++ pyRepr kv.2)))
  | Except.error e => Except.error e

/-- Whether an `Except` computation raised. -/
def isErr {ε α : Type} : Except ε α → Bool
  | Except.error _ => true
  | Except.ok _ => false

/-- Immediate (immutable) Python values for the heap model. -/
inductive Imm
  | iint (n : Int)
  | ibool (b : Bool)
  | istr (s : String)
  | inone
deriving DecidableEq, Repr

/-- A Python value in the heap model: either an immutable immediate or a
reference to a mutable list object on the heap.  Object identity — what
`copy.deepcopy` exists to break — is the reference's address. -/
inductive HVal
  | imm (v : Imm)
  | ref (a : Nat)
deriving DecidableEq, Repr

/-- The heap: one cell per allocated list object, addressed by index. -/
abbrev Heap := List (List Imm)

/-- Python's `type(value)` in the heap model. -/
def typeOfH : HVal → PyType
  | .imm (Imm.iint _) => .int
  | .imm (Imm.ibool _) => .bool
  | .imm (Imm.istr _) => .str
  | .imm Imm.inone => .noneType
  | .ref _ => .list

/-- `copy.deepcopy` in the heap model: immediates are returned as-is;
a reference is copied by allocating a fresh cell (at the end of the
heap) holding the same contents and returning a reference to it. -/
def deepcopyH (h : Heap) : HVal → Heap × HVal
  | .imm v => (h, HVal.imm v)
  | .ref a => (h ++ [h.getD a []], HVal.ref h.length)

/-- The `Tap._parse_args` loop (parsing.py lines 62-74) in the heap
model: the same declaration and type checks, with
`setattr(self, variable, deepcopy(value))` threading the heap. -/
def parse_args_heap (ann : List (String × PyType)) (className : String) :
    List (String × HVal) → Heap → List (String × HVal) →
    Except ParseError Unit × Heap × List (String × HVal)
  | [], h, st => (Except.ok (), h, st)
  | (varName, value) :: rest, h, st =>
    match dlookup ann varName with
    | Option.none => (Except.error (ParseError.undeclaredField varName className), h, st)
    | some variableType =>
      if typeOfH value = variableType then
        let p := deepcopyH h value
        parse_args_heap ann className rest p.1 (dinsert varName p.2 st)
      else
        (Except.error (ParseError.typeMismatch varName (typeOfH value) variableType className), h, st)

/-- Mutate the list object at address `a` (e.g. `xs.append`, item
assignment): replace its contents. -/
def mutateCell (h : Heap) (a : Nat) (xs : List Imm) : Heap := h.set a xs

/-- Read the contents of the list object at address `a`. -/
def readCell (h : Heap) (a : Nat) : Option (List Imm) := h[a]?

/-! Helper lemmas about the dictionary model. -/

theorem dlookup_dinsert {α : Type} (k k2 : String) (v : α) (d : List (String × α)) :
    dlookup (dinsert k v d) k2 = if k = k2 then some v else dlookup d k2 := by
  induction d with
  | nil => simp [dinsert, dlookup]
  | cons kv rest ih =>
    obtain ⟨k', v'⟩ := kv
    by_cases h : k' = k
    · subst h
      by_cases h2 : k' = k2 <;> simp [dinsert, dlookup, h2]
    · by_cases h2 : k' = k2
      · subst h2
        have hk : ¬ k = k' := fun he => h he.symm
        simp [dinsert, dlookup, h, hk]
      · simp [dinsert, dlookup, h, h2, ih]

theorem dlookup_isSome_iff_mem {α : Type} (d : List (String × α)) (k : String) :
    (dlookup d k).isSome = true ↔ k ∈ d.map Prod.fst := by
  induction d with
  | nil => simp [dlookup]
  | cons kv rest ih =>
    obtain ⟨k', v'⟩ := kv
    by_cases h : k' = k
    · subst h; simp [dlookup]
    · have hne : ¬ k = k' := fun he => h he.symm
      simp [dlookup, h, ih, hne]

theorem mem_keys_dinsert {α : Type} (k m : String) (v : α) (d : List (String × α)) :
    m ∈ (dinsert k v d).map Prod.fst ↔ m = k ∨ m ∈ d.map Prod.fst := by
  induction d with
  | nil => simp [dinsert]
  | cons kv rest ih =>
    obtain ⟨k', v'⟩ := kv
    by_cases h : k' = k
    · subst h
      simp [dinsert]
    · simp only [dinsert, if_neg h, List.map_cons, List.mem_cons, ih]
      tauto

theorem nodup_keys_dinsert {α : Type} (k : String) (v : α) (d : List (String × α))
    (hd : (d.map Prod.fst).Nodup) : ((dinsert k v d).map Prod.fst).Nodup := by
  induction d with
  | nil => simp [dinsert]
  | cons kv rest ih =>
    obtain ⟨k', v'⟩ := kv
    simp only [List.map_cons, List.nodup_cons] at hd
    by_cases h : k' = k
    · subst h
      simpa [dinsert] using hd
    · simp only [dinsert, if_neg h, List.map_cons, List.nodup_cons]
      refine ⟨?_, ih hd.2⟩
      intro hmem
      rcases (mem_keys_dinsert k k' v rest).1 hmem with he | hm
      · exact h he
      · exact hd.1 hm

theorem dlookup_dmerge {α : Type} (a b : List (String × α)) (k : String)
    (hb : (b.map Prod.fst).Nodup) :
    dlookup (dmerge a b) k = orElseD (dlookup b k) (dlookup a k) := by
  induction b generalizing a with
  | nil => simp [dmerge, dlookup, orElseD]
  | cons kv rest ih =>
    obtain ⟨k', v'⟩ := kv
    simp only [List.map_cons, List.nodup_cons] at hb
    have hstep : dmerge a ((k', v') :: rest) = dmerge (dinsert k' v' a) rest := rfl
    rw [hstep, ih (dinsert k' v' a) hb.2]
    by_cases h : k' = k
    · subst h
      have hnone : dlookup rest k' = Option.none := by
        cases hcase : dlookup rest k' with
        | none => rfl
        | some w =>
          exact absurd ((dlookup_isSome_iff_mem rest k').1 (by simp [hcase])) hb.1
      simp [dlookup, hnone, dlookup_dinsert, orElseD]
    · simp only [dlookup, if_neg h, dlookup_dinsert, orElseD]

/-! Helper lemmas about the `_parse_args` loop. -/

theorem applyBindings_cons (n : String) (v : PyVal) (bs : List (String × PyVal))
    (st : List (String × PyVal)) :
    applyBindings ((n, v) :: bs) st = applyBindings bs (dinsert n (deepcopy v) st) := rfl

theorem dlookup_applyBindings_not_mem (bs : List (String × PyVal))
    (st : List (String × PyVal)) (n : String) (hn : n ∉ bs.map Prod.fst) :
    dlookup (applyBindings bs st) n = dlookup st n := by
  induction bs generalizing st with
  | nil => rfl
  | cons nv rest ih =>
    obtain ⟨m, v⟩ := nv
    simp only [List.map_cons, List.mem_cons] at hn
    push_neg at hn
    rw [applyBindings_cons, ih _ hn.2, dlookup_dinsert, if_neg (fun he => hn.1 he.symm)]

theorem parse_args_inner_append_ok (ann : List (String × PyType)) (cn : String)
    (pre rest : List (String × PyVal)) (st : List (String × PyVal))
    (h : ∀ nv ∈ pre, okBinding ann nv) :
    parse_args_inner ann cn (pre ++ rest) st =
      parse_args_inner ann cn rest (applyBindings pre st) := by
  induction pre generalizing st with
  | nil => rfl
  | cons nv pre ih =>
    obtain ⟨n, v⟩ := nv
    have hok : dlookup ann n = some (typeOf v) := h (n, v) (List.mem_cons_self _ _)
    show parse_args_inner ann cn ((n, v) :: (pre ++ rest)) st = _
    simp only [parse_args_inner, hok, if_pos rfl]
    exact ih (applyBindings [(n, v)] st) (fun nv hnv => h nv (List.mem_cons_of_mem _ hnv))

theorem parse_args_inner_all_ok (ann : List (String × PyType)) (cn : String)
    (bs : List (String × PyVal)) (st : List (String × PyVal))
    (h : ∀ nv ∈ bs, okBinding ann nv) :
    parse_args_inner ann cn bs st = (Except.ok (), applyBindings bs st) := by
  have := parse_args_inner_append_ok ann cn bs [] st h
  simpa using this

/-- C1: during `parse_args`, a bound name whose parsed value's runtime
type is not exactly the declared annotation type makes parsing fail with
a descriptive type-mismatch error (naming the variable, both types and
the class), and the value is not copied onto the instance: the attribute
state is exactly the state after the bindings processed before it, and
the failing name itself is untouched unless an earlier binding wrote it. -/
theorem typeMismatch_aborts_without_copy
    (ann : List (String × PyType)) (cn : String)
    (validate : List (String × PyVal) → Except ParseError Unit)
    (process : List (String × PyVal) → List (String × PyVal))
    (pre post : List (String × PyVal)) (n : String) (v : PyVal) (t : PyType)
    (st : List (String × PyVal))
    (hpre : ∀ nv ∈ pre, okBinding ann nv)
    (hdecl : dlookup ann n = some t) (hmis : ¬ typeOf v = t) :
    parse_args ann cn validate process (pre ++ (n, v) :: post) st =
      (Except.error (ParseError.typeMismatch n (typeOf v) t cn), applyBindings pre st)
    ∧ (n ∉ pre.map Prod.fst → dlookup (applyBindings pre st) n = dlookup st n) := by
  have hinner : parse_args_inner ann cn (pre ++ (n, v) :: post) st =
      (Except.error (ParseError.typeMismatch n (typeOf v) t cn), applyBindings pre st) := by
    rw [parse_args_inner_append_ok ann cn pre _ st hpre]
    simp only [parse_args_inner, hdecl, if_neg hmis]
  refine ⟨?_, fun hn => dlookup_applyBindings_not_mem pre st n hn⟩
  simp only [parse_args, hinner]

/-- C1 witness: a field `x : int` given a string value. -/
theorem typeMismatch_aborts_without_copy_witness :
    dlookup [("x", PyType.int)] "x" = some PyType.int
    ∧ ¬ typeOf (PyVal.vstr "abc") = PyType.int
    ∧ parse_args [("x", PyType.int)] "Args" (fun _ => Except.ok ()) id
        [("x", PyVal.vstr "abc")] [] =
      (Except.error (ParseError.typeMismatch "x" PyType.str PyType.int "Args"), [])
    ∧ dlookup ([] : List (String × PyVal)) "x" = Option.none := by
  refine ⟨rfl, by decide, ?_, rfl⟩
  have h := typeMismatch_aborts_without_copy [("x", PyType.int)] "Args"
    (fun _ => Except.ok ()) id [] [] "x" (PyVal.vstr "abc") PyType.int []
    (by intro nv hnv; cases hnv) rfl (by decide)
  simpa using h.1

/-- C2: during `parse_args`, a bound name with no declared type
annotation makes parsing fail with a descriptive undeclared-field error
(naming the variable and the class), before any type check or copy of
that value: the error does not depend on the value's type, and the
attribute state is exactly the state after the bindings processed before
it. -/
theorem undeclared_aborts_before_check_or_copy
    (ann : List (String × PyType)) (cn : String)
    (validate : List (String × PyVal) → Except ParseError Unit)
    (process : List (String × PyVal) → List (String × PyVal))
    (pre post : List (String × PyVal)) (n : String) (v : PyVal)
    (st : List (String × PyVal))
    (hpre : ∀ nv ∈ pre, okBinding ann nv)
    (hdecl : dlookup ann n = Option.none) :
    parse_args ann cn validate process (pre ++ (n, v) :: post) st =
      (Except.error (ParseError.undeclaredField n cn), applyBindings pre st)
    ∧ (n ∉ pre.map Prod.fst → dlookup (applyBindings pre st) n = dlookup st n) := by
  have hinner : parse_args_inner ann cn (pre ++ (n, v) :: post) st =
      (Except.error (ParseError.undeclaredField n cn), applyBindings pre st) := by
    rw [parse_args_inner_append_ok ann cn pre _ st hpre]
    simp only [parse_args_inner, hdecl]
  refine ⟨?_, fun hn => dlookup_applyBindings_not_mem pre st n hn⟩
  simp only [parse_args, hinner]

/-- C2 witness: a stray binding `y` on a class annotating only `x`. -/
theorem undeclared_aborts_before_check_or_copy_witness :
    dlookup [("x", PyType.int)] "y" = Option.none
    ∧ parse_args [("x", PyType.int)] "Args" (fun _ => Except.ok ()) id
        [("x", PyVal.vint 1), ("y", PyVal.vint 2)] [] =
      (Except.error (ParseError.undeclaredField "y" "Args"), [("x", PyVal.vint 1)]) := by
  refine ⟨rfl, ?_⟩
  have h := undeclared_aborts_before_check_or_copy [("x", PyType.int)] "Args"
    (fun _ => Except.ok ()) id [("x", PyVal.vint 1)] [] "y" (PyVal.vint 2) []
    (by intro nv hnv; simp at hnv; subst hnv; rfl) rfl
  simpa using h.1

/-- C8: when parsing aborts — on an undeclared bound name, on a type
mismatch, or because the `validate_args` hook raises — every field copied
before the failing check remains set (the attribute state is exactly the
bindings processed so far applied in order) and nothing past the failing
check is applied. -/
theorem failure_preserves_prefix_of_copied_fields
    (ann : List (String × PyType)) (cn : String)
    (validate : List (String × PyVal) → Except ParseError Unit)
    (process : List (String × PyVal) → List (String × PyVal))
    (st : List (String × PyVal)) :
    (∀ pre post (n : String) (v : PyVal), (∀ nv ∈ pre, okBinding ann nv) →
        dlookup ann n = Option.none →
        (parse_args ann cn validate process (pre ++ (n, v) :: post) st).2 =
          applyBindings pre st)
    ∧ (∀ pre post (n : String) (v : PyVal) (t : PyType), (∀ nv ∈ pre, okBinding ann nv) →
        dlookup ann n = some t → ¬ typeOf v = t →
        (parse_args ann cn validate process (pre ++ (n, v) :: post) st).2 =
          applyBindings pre st)
    ∧ (∀ bs (e : ParseError), (∀ nv ∈ bs, okBinding ann nv) →
        validate (applyBindings bs st) = Except.error e →
        parse_args ann cn validate process bs st =
          (Except.error e, applyBindings bs st)) := by
  refine ⟨?_, ?_, ?_⟩
  · intro pre post n v hpre hdecl
    have hinner : parse_args_inner ann cn (pre ++ (n, v) :: post) st =
        (Except.error (ParseError.undeclaredField n cn), applyBindings pre st) := by
      rw [parse_args_inner_append_ok ann cn pre _ st hpre]
      simp only [parse_args_inner, hdecl]
    simp only [parse_args, hinner]
  · intro pre post n v t hpre hdecl hmis
    have hinner : parse_args_inner ann cn (pre ++ (n, v) :: post) st =
        (Except.error (ParseError.typeMismatch n (typeOf v) t cn),
          applyBindings pre st) := by
      rw [parse_args_inner_append_ok ann cn pre _ st hpre]
      simp only [parse_args_inner, hdecl, if_neg hmis]
    simp only [parse_args, hinner]
  · intro bs e hbs hval
    simp only [parse_args, parse_args_inner_all_ok ann cn bs st hbs, hval]

/-- C8 witness: a two-binding parse whose validation hook rejects the
combination; both fields stay copied and the hook's error surfaces. -/
theorem failure_preserves_prefix_of_copied_fields_witness :
    (Except.error (ParseError.validationError "bad combo") :
        Except ParseError Unit) = Except.error (ParseError.validationError "bad combo")
    ∧ parse_args [("x", PyType.int), ("y", PyType.int)] "Args"
        (fun _ => Except.error (ParseError.validationError "bad combo")) id
        [("x", PyVal.vint 1), ("y", PyVal.vint 2)] [] =
      (Except.error (ParseError.validationError "bad combo"),
        [("x", PyVal.vint 1), ("y", PyVal.vint 2)]) := by
  refine ⟨rfl, ?_⟩
  have h := (failure_preserves_prefix_of_copied_fields
      [("x", PyType.int), ("y", PyType.int)] "Args"
      (fun _ => Except.error (ParseError.validationError "bad combo")) id []).2.2
      [("x", PyVal.vint 1), ("y", PyVal.vint 2)]
      (ParseError.validationError "bad combo")
      (by intro nv hnv; simp at hnv; rcases hnv with h1 | h1 <;> (subst h1; rfl)) rfl
  simpa using h

/-! Heap-model lemmas: the parse loop only stores references to freshly
allocated cells. -/

theorem parse_args_heap_fresh_refs (ann : List (String × PyType)) (cn : String) :
    ∀ (bs : List (String × HVal)) (h : Heap) (st : List (String × HVal))
      (r : Except ParseError Unit) (h' : Heap) (st' : List (String × HVal)),
      parse_args_heap ann cn bs h st = (r, h', st') →
      h.length ≤ h'.length ∧
      ∀ (n : String) (a : Nat), dlookup st' n = some (HVal.ref a) →
        dlookup st n = some (HVal.ref a) ∨ (h.length ≤ a ∧ a < h'.length) := by
  intro bs
  induction bs with
  | nil =>
    intro h st r h' st' heq
    simp only [parse_args_heap, Prod.mk.injEq] at heq
    obtain ⟨-, rfl, rfl⟩ := heq
    exact ⟨Nat.le_refl _, fun n a ha => Or.inl ha⟩
  | cons nv rest ih =>
    intro h st r h' st' heq
    obtain ⟨nm, value⟩ := nv
    cases hdecl : dlookup ann nm with
    | none =>
      simp only [parse_args_heap, hdecl, Prod.mk.injEq] at heq
      obtain ⟨-, rfl, rfl⟩ := heq
      exact ⟨Nat.le_refl _, fun n a ha => Or.inl ha⟩
    | some t =>
      simp only [parse_args_heap, hdecl] at heq
      by_cases hty : typeOfH value = t
      · rw [if_pos hty] at heq
        cases value with
        | imm i =>
          obtain ⟨hlen, hrefs⟩ := ih h (dinsert nm (HVal.imm i) st) r h' st' heq
          refine ⟨hlen, fun n a ha => ?_⟩
          rcases hrefs n a ha with hin | hrange
          · rw [dlookup_dinsert] at hin
            by_cases hnm : nm = n
            · rw [if_pos hnm] at hin; cases hin
            · rw [if_neg hnm] at hin; exact Or.inl hin
          · exact Or.inr hrange
        | ref a0 =>
          obtain ⟨hlen, hrefs⟩ := ih (h ++ [h.getD a0 []])
            (dinsert nm (HVal.ref h.length) st) r h' st' heq
          rw [List.length_append] at hlen
          refine ⟨Nat.le_trans (Nat.le_add_right _ _) hlen, fun n a ha => ?_⟩
          rcases hrefs n a ha with hin | hrange
          · rw [dlookup_dinsert] at hin
            by_cases hnm : nm = n
            · rw [if_pos hnm] at hin
              have haeq : HVal.ref h.length = HVal.ref a := Option.some.inj hin
              have haeq2 : a = h.length := (HVal.ref.inj haeq).symm
              subst haeq2
              refine Or.inr ⟨Nat.le_refl _, Nat.lt_of_lt_of_le ?_ hlen⟩
              simp
            · rw [if_neg hnm] at hin; exact Or.inl hin
          · rw [List.length_append] at hrange
            refine Or.inr ⟨Nat.le_trans (Nat.le_add_right _ _) hrange.1, hrange.2⟩
      · rw [if_neg hty] at heq
        simp only [Prod.mk.injEq] at heq
        obtain ⟨-, rfl, rfl⟩ := heq
        exact ⟨Nat.le_refl _, fun n a ha => Or.inl ha⟩

/-- C4: every value that passes the checks is stored as a deep copy, so
two independent instances parsed from the same bindings (for example the
same shared mutable default objects) never share a mutable object: any
two list-valued fields of the two instances are distinct heap objects,
and mutating one instance's list does not change what the other instance
reads. -/
theorem parsed_instances_share_no_mutable_objects
    (ann : List (String × PyType)) (cn : String) (bs : List (String × HVal))
    (h0 h1 h2 : Heap) (stA stB : List (String × HVal))
    (n m : String) (a b : Nat)
    (hA : parse_args_heap ann cn bs h0 [] = (Except.ok (), h1, stA))
    (hB : parse_args_heap ann cn bs h1 [] = (Except.ok (), h2, stB))
    (ha : dlookup stA n = some (HVal.ref a))
    (hb : dlookup stB m = some (HVal.ref b)) :
    a ≠ b ∧
    (∀ xs, readCell (mutateCell h2 a xs) b = readCell h2 b) ∧
    (∀ xs, readCell (mutateCell h2 b xs) a = readCell h2 a) := by
  obtain ⟨hlenA, hrefsA⟩ := parse_args_heap_fresh_refs ann cn bs h0 [] _ h1 stA hA
  obtain ⟨hlenB, hrefsB⟩ := parse_args_heap_fresh_refs ann cn bs h1 [] _ h2 stB hB
  have hA' : h0.length ≤ a ∧ a < h1.length := by
    rcases hrefsA n a ha with hin | hr
    · simp [dlookup] at hin
    · exact hr
  have hB' : h1.length ≤ b ∧ b < h2.length := by
    rcases hrefsB m b hb with hin | hr
    · simp [dlookup] at hin
    · exact hr
  have hab : a < b := Nat.lt_of_lt_of_le hA'.2 hB'.1
  have hne : a ≠ b := Nat.ne_of_lt hab
  refine ⟨hne, fun xs => ?_, fun xs => ?_⟩
  · exact List.getElem?_set_ne hne
  · exact List.getElem?_set_ne (Ne.symm hne)

/-- C4 witness: two instances parsed from the same binding, a shared
default list at address 0; the copies land at addresses 1 and 2, and
mutating one leaves the other unchanged. -/
theorem parsed_instances_share_no_mutable_objects_witness :
    parse_args_heap [("xs", PyType.list)] "Args" [("xs", HVal.ref 0)]
        [[Imm.iint 1]] [] =
      (Except.ok (), [[Imm.iint 1], [Imm.iint 1]], [("xs", HVal.ref 1)])
    ∧ parse_args_heap [("xs", PyType.list)] "Args" [("xs", HVal.ref 0)]
        [[Imm.iint 1], [Imm.iint 1]] [] =
      (Except.ok (), [[Imm.iint 1], [Imm.iint 1], [Imm.iint 1]], [("xs", HVal.ref 2)])
    ∧ (1 : Nat) ≠ 2
    ∧ readCell (mutateCell [[Imm.iint 1], [Imm.iint 1], [Imm.iint 1]] 1 [Imm.iint 9]) 2 =
        readCell [[Imm.iint 1], [Imm.iint 1], [Imm.iint 1]] 2 := by
  refine ⟨rfl, rfl, ?_, ?_⟩
  all_goals {
    have h := parsed_instances_share_no_mutable_objects
      [("xs", PyType.list)] "Args" [("xs", HVal.ref 0)]
      [[Imm.iint 1]] [[Imm.iint 1], [Imm.iint 1]]
      [[Imm.iint 1], [Imm.iint 1], [Imm.iint 1]]
      [("xs", HVal.ref 1)] [("xs", HVal.ref 2)] "xs" "xs" 1 2
      rfl rfl rfl rfl
    first
    | exact h.1
    | exact h.2.1 [Imm.iint 9]
  }

/-- C3: auto-registration derives `--variable` for every annotated field
not manually registered, with `required` true exactly when the field has
no default value visible on the class, and the class default as the
argument default; consequently, for a class with one annotated field
with a default, parsing an empty command line binds the default and ends
with the field set to the default on the instance; without a default,
parsing an empty command line fails with the underlying parser's
required-argument error. -/
theorem auto_registration_required_iff_default :
    (∀ (ann : List (String × PyType)) (descriptions : String → String)
       (classDefaults : List (String × PyVal)) (currentArguments : List String)
       (x : String) (t : PyType),
       (x, t) ∈ ann → currentArguments.contains x = false →
       ∃ spec, spec ∈ add_remaining_arguments ann descriptions classDefaults currentArguments
         ∧ spec.name = x
         ∧ (spec.required = true ↔ dlookup classDefaults x = Option.none)
         ∧ spec.dflt = dlookup classDefaults x
         ∧ spec.argType = dlookup ann x)
    ∧ (∀ (x : String) (t : PyType) (d : PyVal) (cn : String)
         (descriptions : String → String), typeOf d = t →
         tap_parse [(x, t)] cn descriptions [(x, d)] [] = Except.ok [(x, d)])
    ∧ (∀ (x : String) (t : PyType) (cn : String) (descriptions : String → String),
         tap_parse [(x, t)] cn descriptions [] [] =
           Except.error (TapError.usage
             ("the following arguments are required: --" ++ x))) := by
  refine ⟨?_, ?_, ?_⟩
  · intro ann descriptions classDefaults currentArguments x t hmem hcur
    refine ⟨add_argument ann descriptions classDefaults x
      ((dlookup classDefaults x).isNone) Option.none Option.none Option.none, ?_, ?_, ?_, ?_, ?_⟩
    · unfold add_remaining_arguments
      refine List.mem_map.2 ⟨(x, t), ?_, rfl⟩
      refine List.mem_filter.2 ⟨hmem, ?_⟩
      simp only [Bool.not_eq_true']
      exact hcur
    · rfl
    · simp [add_argument, Option.isNone_iff_eq_none]
    · cases h : dlookup classDefaults x <;> simp [add_argument, h]
    · cases h : dlookup ann x <;> simp [add_argument, h]
  · intro x t d cn descriptions htd
    simp [tap_parse, add_remaining_arguments, add_argument, parse_namespace,
      bindOne, parse_args_inner, dlookup, dinsert, deepcopy, htd]
  · intro x t cn descriptions
    simp [tap_parse, add_remaining_arguments, add_argument, parse_namespace,
      bindOne, dlookup]

/-- C3 witness: a class with the single annotated field `x : int = 5`,
parsed with no command-line arguments, ends with `x == 5`; the same
class without the default fails with a required-argument error. -/
theorem auto_registration_required_iff_default_witness :
    (("x", PyType.int) ∈ [("x", PyType.int)]
      ∧ List.contains [] "x" = false
      ∧ typeOf (PyVal.vint 5) = PyType.int)
    ∧ tap_parse [("x", PyType.int)] "Args" (fun _ => "") [("x", PyVal.vint 5)] [] =
        Except.ok [("x", PyVal.vint 5)]
    ∧ tap_parse [("x", PyType.int)] "Args" (fun _ => "") [] [] =
        Except.error (TapError.usage "the following arguments are required: --x") := by
  refine ⟨⟨List.mem_singleton.2 rfl, rfl, rfl⟩, ?_, ?_⟩
  · exact auto_registration_required_iff_default.2.1 "x" PyType.int (PyVal.vint 5)
      "Args" (fun _ => "") rfl
  · have h := auto_registration_required_iff_default.2.2 "x" PyType.int
      "Args" (fun _ => "")
    simpa using h

/-! Lemmas about `getattrAll` (the dict comprehensions of `as_dict`). -/

theorem isErr_exists {ε α : Type} (x : Except ε α) :
    isErr x = true ↔ ∃ m, x = Except.error m := by
  cases x <;> simp [isErr]

theorem getattrAll_nodup (ia cd : List (String × PyVal)) :
    ∀ (names : List String) (acc d : List (String × PyVal)),
      (acc.map Prod.fst).Nodup →
      getattrAll ia cd acc names = Except.ok d → (d.map Prod.fst).Nodup := by
  intro names
  induction names with
  | nil =>
    intro acc d hacc heq
    simp only [getattrAll, Except.ok.injEq] at heq
    exact heq ▸ hacc
  | cons n rest ih =>
    intro acc d hacc heq
    cases hg : pygetattr ia cd n with
    | none => simp [getattrAll, hg] at heq
    | some v =>
      simp only [getattrAll, hg] at heq
      exact ih (dinsert n v acc) d (nodup_keys_dinsert n v acc hacc) heq

theorem getattrAll_mem (ia cd : List (String × PyVal)) :
    ∀ (names : List String) (acc d : List (String × PyVal)),
      getattrAll ia cd acc names = Except.ok d →
      ∀ n, (n ∈ names ∨ (dlookup acc n).isSome = true) →
        (dlookup d n).isSome = true := by
  intro names
  induction names with
  | nil =>
    intro acc d heq n hn
    simp only [getattrAll, Except.ok.injEq] at heq
    rcases hn with hn | hn
    · cases hn
    · exact heq ▸ hn
  | cons m rest ih =>
    intro acc d heq n hn
    cases hg : pygetattr ia cd m with
    | none => simp [getattrAll, hg] at heq
    | some v =>
      simp only [getattrAll, hg] at heq
      refine ih (dinsert m v acc) d heq n ?_
      rcases hn with hn | hn
      · rcases List.mem_cons.1 hn with hn | hn
        · subst hn
          right
          rw [dlookup_dinsert, if_pos rfl]
          rfl
        · exact Or.inl hn
      · right
        rw [dlookup_dinsert]
        by_cases hm : m = n
        · rw [if_pos hm]; rfl
        · rw [if_neg hm]; exact hn

theorem getattrAll_err (ia cd : List (String × PyVal)) :
    ∀ (names : List String) (acc : List (String × PyVal)) (f : String),
      f ∈ names → pygetattr ia cd f = Option.none →
      isErr (getattrAll ia cd acc names) = true := by
  intro names
  induction names with
  | nil =>
    intro acc f hf
    cases hf
  | cons m rest ih =>
    intro acc f hf hget
    cases hg : pygetattr ia cd m with
    | none => simp [getattrAll, hg, isErr]
    | some v =>
      rcases List.mem_cons.1 hf with hf | hf
      · subst hf
        rw [hget] at hg
        cases hg
      · simp only [getattrAll, hg]
        exact ih (dinsert m v acc) f hf hget

theorem getattrAll_error_shape (ia cd : List (String × PyVal)) :
    ∀ (names : List String) (acc : List (String × PyVal)) (m : String),
      getattrAll ia cd acc names = Except.error m →
      ∃ g, m = "AttributeError: " ++ g := by
  intro names
  induction names with
  | nil =>
    intro acc m heq
    simp [getattrAll] at heq
  | cons n rest ih =>
    intro acc m heq
    cases hg : pygetattr ia cd n with
    | none =>
      simp only [getattrAll, hg, Except.error.injEq] at heq
      exact ⟨n, heq.symm⟩
    | some v =>
      simp only [getattrAll, hg] at heq
      exact ih (dinsert n v acc) m heq

/-- C5: `as_dict` returns exactly the Python dict merge of group (a),
the non-callable non-underscore class-level attributes read off the live
instance, with group (b), the annotated fields read off the live
instance; a lookup in the result prefers group (b) on key collision. -/
theorem as_dict_is_merge_with_annotated_precedence
    (classDict : List (String × PyVal)) (ann : List (String × PyType))
    (instanceAttrs : List (String × PyVal)) (d da db : List (String × PyVal))
    (hda : getattrAll instanceAttrs classDict []
        ((classDict.filter
          (fun p => !(startsWithUnderscore p.1) && !(isCallable p.2))).map Prod.fst) =
        Except.ok da)
    (hdb : getattrAll instanceAttrs classDict [] (ann.map Prod.fst) = Except.ok db)
    (hd : as_dict classDict ann instanceAttrs = Except.ok d) :
    d = dmerge da db
    ∧ ∀ k, dlookup d k = orElseD (dlookup db k) (dlookup da k) := by
  have hmerge : d = dmerge da db := by
    simp only [as_dict, hda, hdb, Except.ok.injEq] at hd
    exact hd.symm
  have hnodup : (db.map Prod.fst).Nodup :=
    getattrAll_nodup instanceAttrs classDict (ann.map Prod.fst) [] db (by simp) hdb
  refine ⟨hmerge, fun k => ?_⟩
  rw [hmerge]
  exact dlookup_dmerge da db k hnodup

/-- C5 witness: a class with a private attribute, a method, a plain
class attribute `epochs` and an annotated field `lr`; the merge contains
both `epochs` and `lr`. -/
theorem as_dict_is_merge_with_annotated_precedence_witness :
    as_dict [("_hidden", PyVal.vint 0), ("helper", PyVal.vfunc "helper"),
        ("epochs", PyVal.vint 10)] [("lr", PyType.int)]
        [("lr", PyVal.vint 3)] =
      Except.ok [("epochs", PyVal.vint 10), ("lr", PyVal.vint 3)]
    ∧ dlookup [("epochs", PyVal.vint 10), ("lr", PyVal.vint 3)] "lr" =
        some (PyVal.vint 3)
    ∧ dlookup [("epochs", PyVal.vint 10), ("lr", PyVal.vint 3)] "epochs" =
        some (PyVal.vint 10) := by
  refine ⟨rfl, ?_, ?_⟩
  · have h := as_dict_is_merge_with_annotated_precedence
      [("_hidden", PyVal.vint 0), ("helper", PyVal.vfunc "helper"),
        ("epochs", PyVal.vint 10)] [("lr", PyType.int)] [("lr", PyVal.vint 3)]
      [("epochs", PyVal.vint 10), ("lr", PyVal.vint 3)]
      [("epochs", PyVal.vint 10)] [("lr", PyVal.vint 3)] rfl rfl rfl
    simpa using h.2 "lr"
  · have h := as_dict_is_merge_with_annotated_precedence
      [("_hidden", PyVal.vint 0), ("helper", PyVal.vfunc "helper"),
        ("epochs", PyVal.vint 10)] [("lr", PyType.int)] [("lr", PyVal.vint 3)]
      [("epochs", PyVal.vint 10), ("lr", PyVal.vint 3)]
      [("epochs", PyVal.vint 10)] [("lr", PyVal.vint 3)] rfl rfl rfl
    simpa using h.2 "epochs"

/-- C9 (implicit): if some annotated field is not set — no instance
attribute and no class default, as before `parse_args` runs or after an
abort preceding its copy — then `as_dict` raises an attribute-lookup
error (and so do `get_arg_log`, `save` and `__str__`, which all read
every annotated field off the live instance unconditionally), rather
than returning a partial mapping. -/
theorem as_dict_raises_when_field_unset (env : Env)
    (classDict : List (String × PyVal)) (ann : List (String × PyType))
    (instanceAttrs : List (String × PyVal)) (f : String)
    (hf : f ∈ ann.map Prod.fst)
    (hget : pygetattr instanceAttrs classDict f = Option.none) :
    isErr (as_dict classDict ann instanceAttrs) = true
    ∧ (∀ m, as_dict classDict ann instanceAttrs = Except.error m →
        ∃ g, m = "AttributeError: " ++ g)
    ∧ isErr (get_arg_log env classDict ann instanceAttrs) = true
    ∧ isErr (save env classDict ann instanceAttrs) = true
    ∧ isErr (tap_str classDict ann instanceAttrs) = true := by
  have herr : isErr (as_dict classDict ann instanceAttrs) = true := by
    cases h1 : getattrAll instanceAttrs classDict []
        ((classDict.filter
          (fun p => !(startsWithUnderscore p.1) && !(isCallable p.2))).map Prod.fst) with
    | error e => simp [as_dict, h1, isErr]
    | ok da =>
      have h2 := getattrAll_err instanceAttrs classDict (ann.map Prod.fst) [] f hf hget
      rcases (isErr_exists _).1 h2 with ⟨m, hm⟩
      simp [as_dict, h1, hm, isErr]
  obtain ⟨m, hm⟩ := (isErr_exists _).1 herr
  refine ⟨herr, ?_, ?_, ?_, ?_⟩
  · intro m2 hm2
    cases h1 : getattrAll instanceAttrs classDict []
        ((classDict.filter
          (fun p => !(startsWithUnderscore p.1) && !(isCallable p.2))).map Prod.fst) with
    | error e =>
      simp only [as_dict, h1, Except.error.injEq] at hm2
      subst hm2
      exact getattrAll_error_shape instanceAttrs classDict _ [] e h1
    | ok da =>
      cases h2 : getattrAll instanceAttrs classDict [] (ann.map Prod.fst) with
      | error e2 =>
        simp only [as_dict, h1, h2, Except.error.injEq] at hm2
        subst hm2
        exact getattrAll_error_shape instanceAttrs classDict _ [] e2 h2
      | ok db =>
        simp [as_dict, h1, h2] at hm2
  · simp [get_arg_log, hm, isErr]
  · simp [save, get_arg_log, hm, isErr]
  · simp [tap_str, hm, isErr]

/-- C9 witness: a class annotating `x : int` with no default, before
parsing. -/
theorem as_dict_raises_when_field_unset_witness :
    ("x" ∈ ([("x", PyType.int)].map Prod.fst)
      ∧ pygetattr [] [] "x" = Option.none)
    ∧ isErr (as_dict [] [("x", PyType.int)] []) = true
    ∧ isErr (save (Env.mk ["prog"] "t0" false "" "" false) [] [("x", PyType.int)] []) = true := by
  refine ⟨⟨by simp, rfl⟩, ?_, ?_⟩
  · exact (as_dict_raises_when_field_unset (Env.mk ["prog"] "t0" false "" "" false)
      [] [("x", PyType.int)] [] "x" (by simp) rfl).1
  · exact (as_dict_raises_when_field_unset (Env.mk ["prog"] "t0" false "" "" false)
      [] [("x", PyType.int)] [] "x" (by simp) rfl).2.2.2.1

/-- C7: `get_reproducibility_info` always produces `command_line` (the
reconstructed invocation) and `time`, and produces `git_root`, `git_url`
and `git_has_uncommitted_changes` exactly when a version-control working
tree is detected (`has_git()`); when none is detected the git keys are
absent, and no error is raised (the operation is total). -/
theorem reproducibility_info_keys (env : Env) :
    dlookup (get_reproducibility_info env) "command_line" =
      some (PyVal.vstr ("python " ++ String.intercalate " " env.argv))
    ∧ dlookup (get_reproducibility_info env) "time" = some (PyVal.vstr env.timeStr)
    ∧ ((dlookup (get_reproducibility_info env) "git_root").isSome = true
        ↔ env.hasGit = true)
    ∧ ((dlookup (get_reproducibility_info env) "git_url").isSome = true
        ↔ env.hasGit = true)
    ∧ ((dlookup (get_reproducibility_info env) "git_has_uncommitted_changes").isSome = true
        ↔ env.hasGit = true) := by
  obtain ⟨argv, timeStr, hasGit, gitRoot, gitUrl, gitDirty⟩ := env
  cases hasGit <;>
    simp [get_reproducibility_info, dinsert, dlookup]

/-! Lemmas about JSON serialization and key sorting. -/

theorem toJson_vdict (kvs : List (String × PyVal)) :
    toJson (PyVal.vdict kvs) = (objToJson kvs).map JVal.jobj := rfl

theorem sortJ_jobj (kvs : List (String × JVal)) :
    sortJ (JVal.jobj kvs) = JVal.jobj (sortObj kvs) := rfl

theorem objToJson_lookup (kvs : List (String × PyVal)) (js : List (String × JVal))
    (heq : objToJson kvs = some js) (k : String) :
    dlookup js k = (dlookup kvs k).bind toJson := by
  induction kvs generalizing js with
  | nil =>
    simp only [objToJson, Option.some.injEq] at heq
    subst heq
    simp [dlookup]
  | cons kv rest ih =>
    obtain ⟨k', x⟩ := kv
    cases h1 : toJson x with
    | none => simp [objToJson, h1] at heq
    | some j =>
      cases h2 : objToJson rest with
      | none => simp [objToJson, h1, h2] at heq
      | some js' =>
        simp only [objToJson, h1, h2, Option.some.injEq] at heq
        subst heq
        by_cases hk : k' = k
        · simp [dlookup, hk, h1]
        · simp [dlookup, hk, ih js' h2]

theorem objToJson_keys (kvs : List (String × PyVal)) (js : List (String × JVal))
    (heq : objToJson kvs = some js) : js.map Prod.fst = kvs.map Prod.fst := by
  induction kvs generalizing js with
  | nil =>
    simp only [objToJson, Option.some.injEq] at heq
    subst heq
    rfl
  | cons kv rest ih =>
    obtain ⟨k', x⟩ := kv
    cases h1 : toJson x with
    | none => simp [objToJson, h1] at heq
    | some j =>
      cases h2 : objToJson rest with
      | none => simp [objToJson, h1, h2] at heq
      | some js' =>
        simp only [objToJson, h1, h2, Option.some.injEq] at heq
        subst heq
        simp [ih js' h2]

theorem charListLe_refl (as : List Char) : charListLe as as = true := by
  induction as with
  | nil => rfl
  | cons a as ih =>
    simp [charListLe, ih]

theorem strLe_refl (a : String) : strLe a a = true := charListLe_refl a.data

theorem charListLe_total (as bs : List Char) :
    charListLe as bs = true ∨ charListLe bs as = true := by
  induction as generalizing bs with
  | nil => exact Or.inl rfl
  | cons a as ih =>
    cases bs with
    | nil => exact Or.inr rfl
    | cons b bs =>
      by_cases hab : a.toNat < b.toNat
      · exact Or.inl (by simp only [charListLe]; rw [if_pos hab])
      · by_cases hba : b.toNat < a.toNat
        · exact Or.inr (by simp only [charListLe]; rw [if_pos hba])
        · have heq : a.toNat = b.toNat := by omega
          rcases ih bs with h | h
          · exact Or.inl (by simp only [charListLe]; rw [if_neg hab, if_pos heq]; exact h)
          · exact Or.inr
              (by simp only [charListLe]; rw [if_neg hba, if_pos heq.symm]; exact h)

theorem strLe_total (a b : String) : strLe a b = true ∨ strLe b a = true :=
  charListLe_total a.data b.data

theorem charListLe_trans (as bs cs : List Char)
    (h1 : charListLe as bs = true) (h2 : charListLe bs cs = true) :
    charListLe as cs = true := by
  induction as generalizing bs cs with
  | nil => rfl
  | cons a as ih =>
    cases bs with
    | nil => simp [charListLe] at h1
    | cons b bs =>
      cases cs with
      | nil => simp [charListLe] at h2
      | cons c cs =>
        simp only [charListLe] at h1 h2 ⊢
        by_cases hab : a.toNat < b.toNat
        · by_cases hbc : b.toNat < c.toNat
          · rw [if_pos (Nat.lt_trans hab hbc)]
          · rw [if_neg hbc] at h2
            by_cases hbc2 : b.toNat = c.toNat
            · rw [if_pos (hbc2 ▸ hab)]
            · rw [if_neg hbc2] at h2; exact Bool.noConfusion h2
        · rw [if_neg hab] at h1
          by_cases hab2 : a.toNat = b.toNat
          · rw [if_pos hab2] at h1
            by_cases hbc : b.toNat < c.toNat
            · rw [if_pos (by omega : a.toNat < c.toNat)]
            · rw [if_neg hbc] at h2
              by_cases hbc2 : b.toNat = c.toNat
              · have hac : ¬ a.toNat < c.toNat := by omega
                rw [if_pos hbc2] at h2
                rw [if_neg hac, if_pos (hab2.trans hbc2)]
                exact ih bs cs h1 h2
              · rw [if_neg hbc2] at h2; exact Bool.noConfusion h2
          · rw [if_neg hab2] at h1; exact Bool.noConfusion h1

theorem strLe_trans (a b c : String) (h1 : strLe a b = true) (h2 : strLe b c = true) :
    strLe a c = true := charListLe_trans a.data b.data c.data h1 h2

theorem dlookup_insertSorted (k k2 : String) (v : JVal) (ys : List (String × JVal)) :
    dlookup (insertSorted k v ys) k2 = if k = k2 then some v else dlookup ys k2 := by
  induction ys with
  | nil => simp [insertSorted, dlookup]
  | cons kv t ih =>
    obtain ⟨k', v'⟩ := kv
    by_cases hle : strLe k k' = true
    · have hstep : insertSorted k v ((k', v') :: t) = (k, v) :: (k', v') :: t := by
        rw [insertSorted, if_pos hle]
      rw [hstep]
      simp only [dlookup]
    · have hstep : insertSorted k v ((k', v') :: t) = (k', v') :: insertSorted k v t := by
        rw [insertSorted, if_neg hle]
      rw [hstep]
      by_cases h2 : k' = k2
      · have hk : ¬ k = k2 := fun he => hle (by
          rw [show k = k' from he.trans h2.symm]
          exact strLe_refl k')
        simp only [dlookup, if_pos h2, if_neg hk]
      · simp only [dlookup, if_neg h2, ih]

theorem sortObj_lookup (kvs : List (String × JVal)) (k : String) :
    dlookup (sortObj kvs) k = (dlookup kvs k).map sortJ := by
  induction kvs with
  | nil => simp [sortObj, dlookup]
  | cons kv rest ih =>
    obtain ⟨k', v⟩ := kv
    by_cases h : k' = k <;>
      simp [sortObj, dlookup, dlookup_insertSorted, ih, h]

theorem mem_keys_insertSorted (k m : String) (v : JVal) (ys : List (String × JVal)) :
    m ∈ (insertSorted k v ys).map Prod.fst ↔ m = k ∨ m ∈ ys.map Prod.fst := by
  induction ys with
  | nil => simp [insertSorted]
  | cons kv t ih =>
    obtain ⟨k', v'⟩ := kv
    by_cases hle : strLe k k' = true
    · have hstep : insertSorted k v ((k', v') :: t) = (k, v) :: (k', v') :: t := by
        rw [insertSorted, if_pos hle]
      rw [hstep]
      simp
    · have hstep : insertSorted k v ((k', v') :: t) = (k', v') :: insertSorted k v t := by
        rw [insertSorted, if_neg hle]
      rw [hstep]
      simp [ih]
      tauto

theorem sorted_insertSorted (k : String) (v : JVal) (ys : List (String × JVal))
    (hs : List.Sorted (fun a b => strLe a b = true) (ys.map Prod.fst)) :
    List.Sorted (fun a b => strLe a b = true) ((insertSorted k v ys).map Prod.fst) := by
  induction ys with
  | nil => simp [insertSorted]
  | cons kv t ih =>
    obtain ⟨k', v'⟩ := kv
    simp only [List.map_cons, List.sorted_cons] at hs
    by_cases hle : strLe k k' = true
    · simp only [insertSorted, if_pos hle, List.map_cons, List.sorted_cons]
      refine ⟨?_, hs.1, hs.2⟩
      intro b hb
      rcases List.mem_cons.1 hb with hb | hb
      · exact hb ▸ hle
      · exact strLe_trans k k' b hle (hs.1 b hb)
    · simp only [insertSorted, if_neg hle, List.map_cons, List.sorted_cons]
      refine ⟨?_, ih hs.2⟩
      intro b hb
      rcases (mem_keys_insertSorted k b v t).1 hb with hb | hb
      · refine hb ▸ ?_
        rcases strLe_total k k' with h | h
        · exact absurd h hle
        · exact h
      · exact hs.1 b hb

theorem sortObj_sorted (kvs : List (String × JVal)) :
    List.Sorted (fun a b => strLe a b = true) ((sortObj kvs).map Prod.fst) := by
  induction kvs with
  | nil => simp [sortObj]
  | cons kv rest ih =>
    obtain ⟨k, v⟩ := kv
    exact sorted_insertSorted k (sortJ v) (sortObj rest) ih

/-- The saved JSON object always maps `reproducibility` to the sorted
serialization of the reproducibility metadata. -/
theorem save_jlookup_reproducibility
    (env : Env) (classDict : List (String × PyVal)) (ann : List (String × PyType))
    (instanceAttrs : List (String × PyVal)) (d : List (String × PyVal)) (sv : JVal)
    (hd : as_dict classDict ann instanceAttrs = Except.ok d)
    (hs : save env classDict ann instanceAttrs = Except.ok sv) :
    jlookup sv "reproducibility" =
      (toJson (PyVal.vdict (get_reproducibility_info env))).map sortJ := by
  have hlog : get_arg_log env classDict ann instanceAttrs =
      Except.ok (dinsert "reproducibility"
        (PyVal.vdict (get_reproducibility_info env)) d) := by
    simp [get_arg_log, hd]
  have hs2 : (match toJson (PyVal.vdict (dinsert "reproducibility"
        (PyVal.vdict (get_reproducibility_info env)) d)) with
      | some j => Except.ok (sortJ j)
      | Option.none =>
        (Except.error "TypeError: Object is not JSON serializable" :
          Except String JVal)) = Except.ok sv := by
    rw [← hs]
    simp [save, hlog]
  cases hj : toJson (PyVal.vdict (dinsert "reproducibility"
      (PyVal.vdict (get_reproducibility_info env)) d)) with
  | none => rw [hj] at hs2; simp at hs2
  | some j =>
    rw [hj] at hs2
    simp only [Except.ok.injEq] at hs2
    have hsv : sv = sortJ j := hs2.symm
    rw [toJson_vdict] at hj
    cases hjs : objToJson (dinsert "reproducibility"
        (PyVal.vdict (get_reproducibility_info env)) d) with
    | none => rw [hjs] at hj; simp at hj
    | some js =>
      rw [hjs] at hj
      simp only [Option.map_some', Option.some.injEq] at hj
      have hjeq : j = JVal.jobj js := hj.symm
      subst hjeq
      rw [hsv, sortJ_jobj]
      simp only [jlookup]
      rw [sortObj_lookup, objToJson_lookup _ js hjs _, dlookup_dinsert, if_pos rfl]
      rfl

/-- C10 (implicit): when the class declares a field named
`reproducibility`, `get_arg_log` assigns the reproducibility metadata
mapping on top of the field's value in `as_dict`, so the arg log (and
hence the saved JSON) maps `reproducibility` to the metadata and never
to the user's field value (whenever that value differs from the
metadata). -/
theorem get_arg_log_overwrites_reproducibility (env : Env)
    (classDict : List (String × PyVal)) (ann : List (String × PyType))
    (instanceAttrs : List (String × PyVal)) (d : List (String × PyVal))
    (hf : "reproducibility" ∈ ann.map Prod.fst)
    (hd : as_dict classDict ann instanceAttrs = Except.ok d) :
    (dlookup d "reproducibility").isSome = true
    ∧ get_arg_log env classDict ann instanceAttrs =
        Except.ok (dinsert "reproducibility"
          (PyVal.vdict (get_reproducibility_info env)) d)
    ∧ dlookup (dinsert "reproducibility"
          (PyVal.vdict (get_reproducibility_info env)) d) "reproducibility" =
        some (PyVal.vdict (get_reproducibility_info env))
    ∧ (∀ v, dlookup d "reproducibility" = some v →
        v ≠ PyVal.vdict (get_reproducibility_info env) →
        dlookup (dinsert "reproducibility"
            (PyVal.vdict (get_reproducibility_info env)) d) "reproducibility" ≠
          some v)
    ∧ (∀ sv, save env classDict ann instanceAttrs = Except.ok sv →
        jlookup sv "reproducibility" =
          (toJson (PyVal.vdict (get_reproducibility_info env))).map sortJ) := by
  have hlook : dlookup (dinsert "reproducibility"
      (PyVal.vdict (get_reproducibility_info env)) d) "reproducibility" =
      some (PyVal.vdict (get_reproducibility_info env)) := by
    rw [dlookup_dinsert, if_pos rfl]
  have hsome : (dlookup d "reproducibility").isSome = true := by
    cases h1 : getattrAll instanceAttrs classDict []
        ((classDict.filter
          (fun p => !(startsWithUnderscore p.1) && !(isCallable p.2))).map Prod.fst) with
    | error e => simp [as_dict, h1] at hd
    | ok da =>
      cases h2 : getattrAll instanceAttrs classDict [] (ann.map Prod.fst) with
      | error e2 => simp [as_dict, h1, h2] at hd
      | ok db =>
        have hdd : d = dmerge da db := by
          simp only [as_dict, h1, h2, Except.ok.injEq] at hd
          exact hd.symm
        have hnodup : (db.map Prod.fst).Nodup :=
          getattrAll_nodup instanceAttrs classDict (ann.map Prod.fst) [] db (by simp) h2
        have hbsome : (dlookup db "reproducibility").isSome = true :=
          getattrAll_mem instanceAttrs classDict (ann.map Prod.fst) [] db h2
            "reproducibility" (Or.inl hf)
        rw [hdd, dlookup_dmerge da db _ hnodup]
        rcases Option.isSome_iff_exists.1 hbsome with ⟨v, hv⟩
        simp [hv, orElseD]
  refine ⟨hsome, by simp [get_arg_log, hd], hlook, ?_, ?_⟩
  · intro v hv hvne habs
    rw [hlook] at habs
    exact hvne (Option.some.inj habs).symm
  · intro sv hsv
    exact save_jlookup_reproducibility env classDict ann instanceAttrs d sv hd hsv

/-- C10 witness: a class annotating `reproducibility : str`, parsed to
the value `"mine"`; the arg log maps `reproducibility` to the metadata
mapping instead. -/
theorem get_arg_log_overwrites_reproducibility_witness :
    as_dict [] [("reproducibility", PyType.str)]
        [("reproducibility", PyVal.vstr "mine")] =
      Except.ok [("reproducibility", PyVal.vstr "mine")]
    ∧ get_arg_log (Env.mk ["prog"] "t0" false "" "" false) []
        [("reproducibility", PyType.str)]
        [("reproducibility", PyVal.vstr "mine")] =
      Except.ok [("reproducibility",
        PyVal.vdict (get_reproducibility_info (Env.mk ["prog"] "t0" false "" "" false)))]
    ∧ dlookup [("reproducibility",
        PyVal.vdict (get_reproducibility_info (Env.mk ["prog"] "t0" false "" "" false)))]
        "reproducibility" ≠ some (PyVal.vstr "mine") := by
  refine ⟨rfl, ?_, ?_⟩
  · have h := get_arg_log_overwrites_reproducibility
      (Env.mk ["prog"] "t0" false "" "" false) [] [("reproducibility", PyType.str)]
      [("reproducibility", PyVal.vstr "mine")]
      [("reproducibility", PyVal.vstr "mine")] (by simp) rfl
    exact h.2.1
  · have h := get_arg_log_overwrites_reproducibility
      (Env.mk ["prog"] "t0" false "" "" false) [] [("reproducibility", PyType.str)]
      [("reproducibility", PyVal.vstr "mine")]
      [("reproducibility", PyVal.vstr "mine")] (by simp) rfl
    have h4 := h.2.2.2.1 (PyVal.vstr "mine") rfl (by intro he; cases he)
    simpa [dinsert] using h4

/-- C6 (amended): `save` writes the arg log as JSON whose object keys
are lexicographically sorted (`sort_keys=True`; `indent=4` only affects
whitespace), and the mapping read back from the file agrees with
`as_dict()` (as serialized to JSON) at every key other than
`reproducibility`; the key `reproducibility` maps to the reproducibility
metadata — added when `as_dict()` has no such key, silently replacing
the field's value otherwise — so the read-back key set is the key set of
`as_dict()` together with `reproducibility`. -/
theorem save_roundtrip_matches_as_dict_plus_reproducibility
    (env : Env) (classDict : List (String × PyVal)) (ann : List (String × PyType))
    (instanceAttrs : List (String × PyVal)) (d : List (String × PyVal)) (sv : JVal)
    (hd : as_dict classDict ann instanceAttrs = Except.ok d)
    (hs : save env classDict ann instanceAttrs = Except.ok sv) :
    List.Sorted (fun a b => strLe a b = true) (jKeys sv)
    ∧ (∀ k, ¬ k = "reproducibility" →
        jlookup sv k = (dlookup d k).bind (fun v => (toJson v).map sortJ))
    ∧ jlookup sv "reproducibility" =
        (toJson (PyVal.vdict (get_reproducibility_info env))).map sortJ
    ∧ (∀ k, (jlookup sv k).isSome = true ↔
        (k = "reproducibility" ∨ (dlookup d k).isSome = true)) := by
  have hlog : get_arg_log env classDict ann instanceAttrs =
      Except.ok (dinsert "reproducibility"
        (PyVal.vdict (get_reproducibility_info env)) d) := by
    simp [get_arg_log, hd]
  have hs2 : (match toJson (PyVal.vdict (dinsert "reproducibility"
        (PyVal.vdict (get_reproducibility_info env)) d)) with
      | some j => Except.ok (sortJ j)
      | Option.none =>
        (Except.error "TypeError: Object is not JSON serializable" :
          Except String JVal)) = Except.ok sv := by
    rw [← hs]
    simp [save, hlog]
  cases hj : toJson (PyVal.vdict (dinsert "reproducibility"
      (PyVal.vdict (get_reproducibility_info env)) d)) with
  | none => rw [hj] at hs2; simp at hs2
  | some j =>
    rw [hj] at hs2
    simp only [Except.ok.injEq] at hs2
    have hsv : sv = sortJ j := hs2.symm
    rw [toJson_vdict] at hj
    cases hjs : objToJson (dinsert "reproducibility"
        (PyVal.vdict (get_reproducibility_info env)) d) with
    | none => rw [hjs] at hj; simp at hj
    | some js =>
      rw [hjs] at hj
      simp only [Option.map_some', Option.some.injEq] at hj
      have hjeq : j = JVal.jobj js := hj.symm
      subst hjeq
      have hsv2 : sv = JVal.jobj (sortObj js) := by rw [hsv, sortJ_jobj]
      refine ⟨?_, ?_, ?_, ?_⟩
      · rw [hsv2]
        exact sortObj_sorted js
      · intro k hk
        rw [hsv2]
        simp only [jlookup]
        rw [sortObj_lookup, objToJson_lookup _ js hjs k, dlookup_dinsert,
          if_neg (fun he => hk he.symm)]
        cases dlookup d k <;> simp
      · rw [hsv2]
        simp only [jlookup]
        rw [sortObj_lookup, objToJson_lookup _ js hjs _, dlookup_dinsert, if_pos rfl]
        rfl
      · intro k
        rw [hsv2]
        simp only [jlookup]
        have h1 : (dlookup (sortObj js) k).isSome = (dlookup js k).isSome := by
          rw [sortObj_lookup]
          cases dlookup js k <;> simp
        have h3 : js.map Prod.fst = (dinsert "reproducibility"
            (PyVal.vdict (get_reproducibility_info env)) d).map Prod.fst :=
          objToJson_keys _ js hjs
        rw [h1, dlookup_isSome_iff_mem, h3, ← dlookup_isSome_iff_mem, dlookup_dinsert]
        by_cases hk : "reproducibility" = k
        · rw [if_pos hk]
          simp [hk.symm]
        · rw [if_neg hk]
          have hk2 : ¬ k = "reproducibility" := fun he => hk he.symm
          simp [hk2]

/-- C6 witness: a class with plain attributes `a`, `b` and an annotated
list field `z`; the saved object is key-sorted, agrees with `as_dict` at
the other keys, and adds the `reproducibility` key. -/
theorem save_roundtrip_matches_as_dict_plus_reproducibility_witness :
    as_dict [("b", PyVal.vint 2), ("a", PyVal.vint 1)] [("z", PyType.list)]
        [("z", PyVal.vlist [PyVal.vint 9])] =
      Except.ok [("b", PyVal.vint 2), ("a", PyVal.vint 1),
        ("z", PyVal.vlist [PyVal.vint 9])]
    ∧ save (Env.mk ["p"] "t0" false "" "" false)
        [("b", PyVal.vint 2), ("a", PyVal.vint 1)] [("z", PyType.list)]
        [("z", PyVal.vlist [PyVal.vint 9])] =
      Except.ok (JVal.jobj [("a", JVal.jnum 1), ("b", JVal.jnum 2),
        ("reproducibility", JVal.jobj
          [("command_line", JVal.jstr ("python " ++ String.intercalate " " ["p"])),
           ("time", JVal.jstr "t0")]),
        ("z", JVal.jarr [JVal.jnum 9])])
    ∧ List.Sorted (fun a b => strLe a b = true)
        (jKeys (JVal.jobj [("a", JVal.jnum 1), ("b", JVal.jnum 2),
          ("reproducibility", JVal.jobj
            [("command_line", JVal.jstr ("python " ++ String.intercalate " " ["p"])),
             ("time", JVal.jstr "t0")]),
          ("z", JVal.jarr [JVal.jnum 9])]))
    ∧ jlookup (JVal.jobj [("a", JVal.jnum 1), ("b", JVal.jnum 2),
          ("reproducibility", JVal.jobj
            [("command_line", JVal.jstr ("python " ++ String.intercalate " " ["p"])),
             ("time", JVal.jstr "t0")]),
          ("z", JVal.jarr [JVal.jnum 9])]) "a" =
        (dlookup [("b", PyVal.vint 2), ("a", PyVal.vint 1),
          ("z", PyVal.vlist [PyVal.vint 9])] "a").bind
          (fun v => (toJson v).map sortJ)
    ∧ ((jlookup (JVal.jobj [("a", JVal.jnum 1), ("b", JVal.jnum 2),
          ("reproducibility", JVal.jobj
            [("command_line", JVal.jstr ("python " ++ String.intercalate " " ["p"])),
             ("time", JVal.jstr "t0")]),
          ("z", JVal.jarr [JVal.jnum 9])]) "reproducibility").isSome = true ↔
        ("reproducibility" = "reproducibility"
          ∨ (dlookup [("b", PyVal.vint 2), ("a", PyVal.vint 1),
              ("z", PyVal.vlist [PyVal.vint 9])] "reproducibility").isSome = true)) := by
  have hd : as_dict [("b", PyVal.vint 2), ("a", PyVal.vint 1)] [("z", PyType.list)]
      [("z", PyVal.vlist [PyVal.vint 9])] =
      Except.ok [("b", PyVal.vint 2), ("a", PyVal.vint 1),
        ("z", PyVal.vlist [PyVal.vint 9])] := rfl
  have hs : save (Env.mk ["p"] "t0" false "" "" false)
      [("b", PyVal.vint 2), ("a", PyVal.vint 1)] [("z", PyType.list)]
      [("z", PyVal.vlist [PyVal.vint 9])] =
      Except.ok (JVal.jobj [("a", JVal.jnum 1), ("b", JVal.jnum 2),
        ("reproducibility", JVal.jobj
          [("command_line", JVal.jstr ("python " ++ String.intercalate " " ["p"])),
           ("time", JVal.jstr "t0")]),
        ("z", JVal.jarr [JVal.jnum 9])]) := rfl
  have h := save_roundtrip_matches_as_dict_plus_reproducibility
    (Env.mk ["p"] "t0" false "" "" false)
    [("b", PyVal.vint 2), ("a", PyVal.vint 1)] [("z", PyType.list)]
    [("z", PyVal.vlist [PyVal.vint 9])]
    [("b", PyVal.vint 2), ("a", PyVal.vint 1), ("z", PyVal.vlist [PyVal.vint 9])]
    (JVal.jobj [("a", JVal.jnum 1), ("b", JVal.jnum 2),
      ("reproducibility", JVal.jobj
        [("command_line", JVal.jstr ("python " ++ String.intercalate " " ["p"])),
         ("time", JVal.jstr "t0")]),
      ("z", JVal.jarr [JVal.jnum 9])]) hd hs
  exact ⟨hd, hs, h.1, h.2.1 "a" (by decide), h.2.2.2 "reproducibility"⟩

/-- C6 counterexample to the claim as stated: for a class declaring a
field named `reproducibility` (parsed here to the string `"mine"`), the
mapping read back from the saved file is not `as_dict()` with one added
key: no key is added (the key sets coincide) and the value at the
existing key `reproducibility` differs from its `as_dict()` value. -/
theorem save_overwrites_declared_reproducibility_cex :
    as_dict [] [("reproducibility", PyType.str)]
        [("reproducibility", PyVal.vstr "mine")] =
      Except.ok [("reproducibility", PyVal.vstr "mine")]
    ∧ save (Env.mk ["prog"] "t0" false "" "" false) []
        [("reproducibility", PyType.str)]
        [("reproducibility", PyVal.vstr "mine")] =
      Except.ok (JVal.jobj [("reproducibility", JVal.jobj
        [("command_line", JVal.jstr ("python " ++ String.intercalate " " ["prog"])),
         ("time", JVal.jstr "t0")])])
    ∧ jKeys (JVal.jobj [("reproducibility", JVal.jobj
        [("command_line", JVal.jstr ("python " ++ String.intercalate " " ["prog"])),
         ("time", JVal.jstr "t0")])]) =
      [("reproducibility", PyVal.vstr "mine")].map Prod.fst
    ∧ (JVal.jobj
        [("command_line", JVal.jstr ("python " ++ String.intercalate " " ["prog"])),
         ("time", JVal.jstr "t0")] ≠ JVal.jstr "mine") := by
  refine ⟨rfl, rfl, rfl, ?_⟩
  intro h
  exact JVal.noConfusion h

end Tap
